import Mathlib

/-!
Verification development of `main.go` of sarama_close_bug.

The program creates a single-partition topic, starts two consumers in one
consumer group, waits for one readiness signal from each, and closes the
session handle of the first consumer that holds no claim.

The Kafka client library (sarama) is an external collaborator.  Every call
into it is modelled by the value the call returns, which is a parameter of
the embedded function; the calls the program issues are recorded in the
result so that theorems can speak about them.
-/

namespace SaramaCloseBug

/-! ## Errors -/

/-- A Go `error` value, as far as `main.go` inspects it: a `sarama.KError`
(an `int16` code), a package-level sentinel made by `errors.New` (compared by
identity, modelled by its variable name), or an error wrapping another one
(`fmt.Errorf` with `%w`). A nil `error` is `none : Option GoError`. -/
inductive GoError where
  | kerror (code : Int)
  | sentinel (name : String)
  | wrapped (msg : String) (inner : GoError)
  deriving DecidableEq, Repr

/-- The code `sarama.ErrNoError` (`KError` 0). -/
def ErrNoError : Int := 0

/-- The code `sarama.ErrTopicAlreadyExists` (`KError` 36). -/
def ErrTopicAlreadyExists : Int := 36

/-- The sentinel `sarama.ErrAlreadyConnected`. -/
def ErrAlreadyConnected : GoError := .sentinel "ErrAlreadyConnected"

/-- The sentinel `sarama.ErrClosedConsumerGroup`. -/
def ErrClosedConsumerGroup : GoError := .sentinel "ErrClosedConsumerGroup"

/-- The run-time error raised by dereferencing a nil pointer. -/
def nilDereference : GoError := .sentinel "runtime error: nil pointer dereference"

/-- The function `errors.Is`: `err` or one of the errors it wraps equals `target`. -/
def errorsIs : GoError → GoError → Bool
  | .kerror c, target => decide (GoError.kerror c = target)
  | .sentinel n, target => decide (GoError.sentinel n = target)
  | .wrapped m inner, target =>
      if GoError.wrapped m inner = target then true else errorsIs inner target

/-- The test `err != nil && err != sarama.ErrNoError` of `main`. -/
def isFailure : Option GoError → Bool
  | none => false
  | some e => decide (e ≠ GoError.kerror ErrNoError)

/-! ## How the process ends -/

/-- The ways `main` ends: a normal return, `log.Fatal` (exit status 1) with
its label and the error printed with it, or a panic. -/
inductive Exit where
  | returned
  | fatal (label : String) (err : Option GoError)
  | panicked (err : GoError)
  deriving DecidableEq, Repr

/-- One stage of `main`: it either lets the run go on or ends the process. -/
inductive Stage where
  | proceed
  | stop (e : Exit)
  deriving DecidableEq, Repr

/-! ## Controller bootstrap (`main`, lines 92-100) -/

/-- Result of the controller bootstrap: the stage outcome and the number of
`b.Open` calls issued. -/
structure BootstrapResult where
  stage : Stage
  openCalls : Nat
  deriving DecidableEq, Repr

/-- Lines 92-100 of `main`. `ok` and `err` are the results of `b.Connected()`;
`openResult` is what `b.Open(c.Config())` returns if it is called. -/
def controllerBootstrap (ok : Bool) (err : Option GoError) (openResult : Option GoError) :
    BootstrapResult :=
  if isFailure err then
    { stage := .stop (.fatal "can't check connected status" err), openCalls := 0 }
  else if !ok then
    if openResult ≠ some ErrAlreadyConnected then
      { stage := .stop (.fatal "oops" openResult), openCalls := 1 }
    else
      { stage := .proceed, openCalls := 1 }
  else
    { stage := .proceed, openCalls := 0 }

/-! ## Topic creation (`main`, lines 102-115) -/

/-- The struct `sarama.TopicError`. -/
structure TopicError where
  Err : Int
  ErrMsg : Option String
  deriving DecidableEq, Repr

/-- The struct `sarama.CreateTopicsResponse`, restricted to the field `main`
reads. The map `TopicErrors` is an association list in the order in which the
`range` loop visits it; `none` is the nil map and an entry `none` a nil
pointer. -/
structure CreateTopicsResponse where
  TopicErrors : Option (List (String × Option TopicError))
  deriving DecidableEq, Repr

/-- The loop of lines 108-112 over the entries of `res.TopicErrors`. -/
def topicErrorsLoop : List (String × Option TopicError) → Stage
  | [] => .proceed
  | (_, none) :: _ => .stop (.panicked nilDereference)
  | (_, some te) :: rest =>
      if te.Err ≠ ErrNoError then .stop (.fatal "create topic" (some (.kerror te.Err)))
      else topicErrorsLoop rest

/-- Lines 102-115 of `main`. `res` and `err` are the results of
`b.CreateTopics(req)`. -/
def createTopicStage (res : Option CreateTopicsResponse) (err : Option GoError) : Stage :=
  if isFailure err then .stop (.fatal "create topic" err)
  else
    match res with
    | none => .stop (.panicked nilDereference)
    | some r =>
        match r.TopicErrors with
        | none => .proceed
        | some entries => topicErrorsLoop entries

/-! ## The consume loop of one worker (`main`, lines 136-147) -/

/-- State of a worker task: it returned, it panicked (which aborts the whole
program), or it is inside a `Consume` call that has not returned. -/
inductive TaskEnd where
  | returned
  | panicked (err : GoError)
  | consuming
  deriving DecidableEq, Repr

/-- The goroutine of lines 136-147, run against the results of the successive
`client.Consume` calls. `calls` counts the `Consume` calls already issued; the
result pairs the state of the task with the number of calls issued in all. -/
def consumeLoop : List (Option GoError) → Nat → TaskEnd × Nat
  | [], calls => (.consuming, calls + 1)
  | none :: rest, calls => consumeLoop rest (calls + 1)
  | some err :: _, calls =>
      if errorsIs err ErrClosedConsumerGroup then (.returned, calls + 1)
      else (.panicked err, calls + 1)

/-! ## Messages and `ConsumeClaim` (lines 195-208) -/

/-- The struct `sarama.ConsumerMessage`, restricted to plain data fields. -/
structure ConsumerMessage where
  Topic : String
  Partition : Int
  Offset : Int
  Key : List Nat
  Value : List Nat
  Timestamp : Int
  deriving DecidableEq, Repr

/-- One `session.MarkMessage(msg, metadata)` call. -/
structure MarkCall where
  msg : ConsumerMessage
  metadata : String
  deriving DecidableEq, Repr

/-- The `range` loop of `ConsumeClaim` over the messages delivered on the
claim's channel until it is closed; `marks` are the `MarkMessage` calls issued
so far on the session. -/
def consumeClaimLoop : List ConsumerMessage → List MarkCall → List MarkCall
  | [], marks => marks
  | message :: rest, marks =>
      consumeClaimLoop rest (marks ++ [{ msg := message, metadata := "" }])

/-- The method `Consumer.ConsumeClaim`: the `MarkMessage` calls on the session
after the call, and the returned error. -/
def ConsumeClaim (marks : List MarkCall) (messages : List ConsumerMessage) :
    List MarkCall × Option GoError :=
  (consumeClaimLoop messages marks, none)

/-! ## Workers (`Consumer`, lines 172-187) -/

/-- A buffered channel of `struct{}` values: its capacity and the number of
values waiting in its buffer (the values carry no data). -/
structure Chan where
  cap : Nat
  len : Nat
  deriving DecidableEq, Repr

/-- The expression `make(chan struct{}, n)`. -/
def makeChan (n : Nat) : Chan := { cap := n, len := 0 }

/-- A send on a channel without a waiting receiver: it completes when the
buffer has room; `none` means the buffer is full and the sender blocks. -/
def Chan.send (c : Chan) : Option Chan :=
  if c.len < c.cap then some { c with len := c.len + 1 } else none

/-- A receive from a channel without a waiting sender: it completes when the
buffer holds a value; `none` means the buffer is empty and the receiver blocks. -/
def Chan.recv (c : Chan) : Option Chan :=
  if 0 < c.len then some { c with len := c.len - 1 } else none

/-- Identity of a `sarama.ConsumerGroup` client. -/
abbrev Handle := Nat

/-- The struct `Consumer`. The field `cs` holds the client assigned at line
134, which `main` does before the worker is used in any other way. -/
structure Consumer where
  id : Int
  ready : Chan
  cs : Handle
  claims : Int
  deriving DecidableEq, Repr

/-- A `sarama.ConsumerGroupSession`, restricted to what `Setup` reads: the map
returned by `Claims()`, from topic to claimed partitions, as an association
list with one entry per key. -/
structure Session where
  Claims : List (String × List Int)
  deriving DecidableEq, Repr

/-- The conversion `int32(n)` of a non-negative `int`: the low 32 bits of `n`
read as a two's complement number. -/
def toInt32 (n : Nat) : Int :=
  if n % 4294967296 < 2147483648 then ((n % 4294967296 : Nat) : Int)
  else ((n % 4294967296 : Nat) : Int) - 4294967296

/-- Line 184 of `Setup`: the atomic store of `int32(len(s.Claims()))`. -/
def storeClaims (consumer : Consumer) (s : Session) : Consumer :=
  { consumer with claims := toInt32 s.Claims.length }

/-- How a call of `Setup` stands: it returned with an error value, or it is
blocked in the send of line 185. Both carry the worker's state. -/
inductive SetupResult where
  | returned (consumer : Consumer) (err : Option GoError)
  | blocked (consumer : Consumer)
  deriving DecidableEq, Repr

/-- The method `Consumer.Setup` (lines 181-187), with no receiver waiting on
the ready channel. -/
def Setup (consumer : Consumer) (s : Session) : SetupResult :=
  let stored := storeClaims consumer s
  match stored.ready.send with
  | some ch => .returned { stored with ready := ch } none
  | none => .blocked stored

/-! ## Claim evaluation (`main`, lines 155-169) -/

/-- One iteration of the loop of lines 155-167 on worker `t`. `close h` is the
result of `Close()` on the client `h`. `none`: the loop goes on to the next
worker; `some (e, hs)`: the process ends with `e` after calling `Close` on `hs`. -/
def claimStep (close : Handle → Option GoError) (t : Consumer) : Option (Exit × List Handle) :=
  if t.claims = 0 then
    match close t.cs with
    | some err => some (.panicked err, [t.cs])
    | none => some (.returned, [t.cs])
  else none

/-- Line 169 of `main`. -/
def fatalNoLoser : Exit := .fatal "test does not work, must not happen" none

/-- Lines 155-169 of `main` over the workers in iteration order: how the
process ends and the clients on which `Close` was called, in call order. -/
def claimLoop (close : Handle → Option GoError) : List Consumer → Exit × List Handle
  | [] => (fatalNoLoser, [])
  | t :: rest =>
      match claimStep close t with
      | some r => r
      | none => claimLoop close rest

/-! ## The rendezvous as a transition system (`main` lines 123-169, `Setup`) -/

/-- The two workers of `main`. -/
inductive WorkerId where
  | first
  | second
  deriving DecidableEq, Repr

/-- Where a worker's goroutine stands with respect to `Setup`: outside of it,
or inside it after the store of line 184 with the send of line 185 pending. -/
inductive WorkerPc where
  | outside
  | atSend
  deriving DecidableEq, Repr

/-- A worker: its `Consumer` struct and the position of its goroutine. -/
structure Worker where
  consumer : Consumer
  pc : WorkerPc
  deriving DecidableEq, Repr

/-- The statement `main` executes next: the receive of line 150, the receive
of line 151, the loop iteration on the first or on the second worker, or
nothing because the process has ended. -/
inductive MainPc where
  | awaitFirst
  | awaitSecond
  | loadFirst
  | loadSecond
  | finished (e : Exit)
  deriving DecidableEq, Repr

/-- State of the program from line 150 on. -/
structure Sys where
  consumer1 : Worker
  consumer2 : Worker
  main : MainPc
  closed : List Handle
  deriving DecidableEq, Repr

/-- The atomic steps of the program. `setupStore w s`: sarama calls `Setup` on
worker `w` with session `s`, and the call runs up to the store of line 184.
`setupSend w`: the send of line 185 completes and `Setup` returns.
`recvReady w`: `main` receives from the ready channel of `w`. `loadClaims w`:
`main` runs the loop iteration of lines 156-166 on `w`. -/
inductive Event where
  | setupStore (w : WorkerId) (s : Session)
  | setupSend (w : WorkerId)
  | recvReady (w : WorkerId)
  | loadClaims (w : WorkerId)
  deriving DecidableEq, Repr

/-- The worker named by `w`. -/
def Sys.worker (s : Sys) : WorkerId → Worker
  | .first => s.consumer1
  | .second => s.consumer2

/-- Replace the worker named by `w`. -/
def Sys.setWorker (s : Sys) (w : WorkerId) (x : Worker) : Sys :=
  match w with
  | .first => { s with consumer1 := x }
  | .second => { s with consumer2 := x }

/-- The process has not ended. -/
def Sys.running (s : Sys) : Bool :=
  match s.main with
  | .finished _ => false
  | _ => true

/-- The state after line 148: both workers built by lines 123-134 with their
clients `h1` and `h2`, both goroutines started, no callback run yet. -/
def initSys (h1 h2 : Handle) : Sys :=
  { consumer1 := { consumer := { id := 1, ready := makeChan 2, cs := h1, claims := 0 },
                   pc := .outside }
    consumer2 := { consumer := { id := 2, ready := makeChan 2, cs := h2, claims := 0 },
                   pc := .outside }
    main := .awaitFirst
    closed := [] }

/-- The loop iteration of `main` on worker `t`; `next` is where `main` goes
when the worker holds a claim. -/
def loadStep (close : Handle → Option GoError) (s : Sys) (t : Consumer) (next : MainPc) : Sys :=
  match claimStep close t with
  | some (e, hs) => { s with main := .finished e, closed := s.closed ++ hs }
  | none => { s with main := next }

/-- One atomic step; `none` when the event is not enabled in the state (a
blocked send or receive, a statement that is not the next one, or a process
that has ended). -/
def step (close : Handle → Option GoError) (s : Sys) : Event → Option Sys
  | .setupStore w sess =>
      if s.running ∧ (s.worker w).pc = .outside then
        some (s.setWorker w { consumer := storeClaims (s.worker w).consumer sess, pc := .atSend })
      else none
  | .setupSend w =>
      if s.running ∧ (s.worker w).pc = .atSend then
        match (s.worker w).consumer.ready.send with
        | some ch =>
            some (s.setWorker w { consumer := { (s.worker w).consumer with ready := ch },
                                  pc := .outside })
        | none => none
      else none
  | .recvReady w =>
      match s.main, w with
      | .awaitFirst, .first =>
          match s.consumer1.consumer.ready.recv with
          | some ch =>
              some { s with consumer1 := { s.consumer1 with
                                           consumer := { s.consumer1.consumer with ready := ch } },
                            main := .awaitSecond }
          | none => none
      | .awaitSecond, .second =>
          match s.consumer2.consumer.ready.recv with
          | some ch =>
              some { s with consumer2 := { s.consumer2 with
                                           consumer := { s.consumer2.consumer with ready := ch } },
                            main := .loadFirst }
          | none => none
      | _, _ => none
  | .loadClaims w =>
      match s.main, w with
      | .loadFirst, .first => some (loadStep close s s.consumer1.consumer .loadSecond)
      | .loadSecond, .second =>
          some (loadStep close s s.consumer2.consumer (.finished fatalNoLoser))
      | _, _ => none

/-- Run a schedule of events from a state; `none` when some event of the
schedule is not enabled when its turn comes. -/
def run (close : Handle → Option GoError) : Sys → List Event → Option Sys
  | s, [] => some s
  | s, e :: rest =>
      match step close s e with
      | some s1 => run close s1 rest
      | none => none

/-- The event is a `Setup` call on worker `w`. -/
def Event.isSetupCall (w : WorkerId) : Event → Bool
  | .setupStore v _ => decide (v = w)
  | _ => false

/-- Number of `Setup` calls on worker `w` in a schedule. -/
def setupCalls (w : WorkerId) (evs : List Event) : Nat :=
  evs.countP (Event.isSetupCall w)

/-- Number of readiness signals worker `w` has sent in a schedule. -/
def signalsSent (w : WorkerId) (evs : List Event) : Nat :=
  evs.count (.setupSend w)

/-- Number of readiness signals `main` has received from worker `w`. -/
def signalsReceived (w : WorkerId) (evs : List Event) : Nat :=
  evs.count (.recvReady w)

/-- Number of readiness signals `main` has received from worker `w` when the
statement it executes next is `pc`. -/
def MainPc.received : MainPc → WorkerId → Nat
  | .awaitFirst, _ => 0
  | .awaitSecond, .first => 1
  | .awaitSecond, .second => 0
  | _, _ => 1

/-- Number of `Setup` calls of a worker that have stored but not yet sent. -/
def WorkerPc.pending : WorkerPc → Nat
  | .outside => 0
  | .atSend => 1

/-- Invariant linking a state to the schedule that led to it: each ready
channel has capacity 2 and holds the signals sent and not yet received, every
`Setup` call has sent its signal except one that stands at its send, and the
signals `main` has received are those its position accounts for. -/
def Inv (s : Sys) (evs : List Event) : Prop :=
  ∀ w, (s.worker w).consumer.ready.cap = 2 ∧
    (s.worker w).consumer.ready.len + signalsReceived w evs = signalsSent w evs ∧
    (s.worker w).consumer.ready.len ≤ 2 ∧
    setupCalls w evs = signalsSent w evs + (s.worker w).pc.pending ∧
    signalsReceived w evs = s.main.received w

/-! ## Claim evaluation: theorems -/

/-- A worker that holds a claim lets the loop go on. -/
theorem claimStep_of_ne_zero (close : Handle → Option GoError) (t : Consumer)
    (h : t.claims ≠ 0) : claimStep close t = none := by
  simp [claimStep, h]

/-- A worker without a claim ends the loop with one `Close` call on its client. -/
theorem claimStep_of_zero (close : Handle → Option GoError) (t : Consumer)
    (h : t.claims = 0) :
    claimStep close t =
      some (match close t.cs with
            | some err => (Exit.panicked err, [t.cs])
            | none => (Exit.returned, [t.cs])) := by
  unfold claimStep
  rw [if_pos h]
  cases close t.cs <;> rfl

/-- The loop ends at the first worker without a claim: the list splits around
it, and the outcome is that of the `Close` call on its client. -/
theorem claimLoop_split (close : Handle → Option GoError) (ws : List Consumer)
    (hzero : ∃ t ∈ ws, t.claims = 0) :
    ∃ pre t post, ws = pre ++ t :: post ∧ (∀ u ∈ pre, u.claims ≠ 0) ∧ t.claims = 0 ∧
      claimLoop close ws =
        (match close t.cs with
         | some err => (Exit.panicked err, [t.cs])
         | none => (Exit.returned, [t.cs])) := by
  induction ws with
  | nil => obtain ⟨t, ht, _⟩ := hzero; cases ht
  | cons w rest ih =>
    by_cases hw : w.claims = 0
    · refine ⟨[], w, rest, rfl, ?_, hw, ?_⟩
      · intro u hu; cases hu
      · simp only [claimLoop, claimStep_of_zero close w hw]
    · have hrest : ∃ t ∈ rest, t.claims = 0 := by
        obtain ⟨t, ht, h0⟩ := hzero
        rcases List.mem_cons.mp ht with rfl | hmem
        · exact absurd h0 hw
        · exact ⟨t, hmem, h0⟩
      obtain ⟨pre, t, post, hsplit, hpre, ht0, hres⟩ := ih hrest
      refine ⟨w :: pre, t, post, by simp [hsplit], ?_, ht0, ?_⟩
      · intro u hu
        rcases List.mem_cons.mp hu with rfl | hmem
        · exact hw
        · exact hpre u hmem
      · simp only [claimLoop, claimStep_of_ne_zero close w hw]
        exact hres

/-- When every worker holds a claim the loop falls through to line 169. -/
theorem claimLoop_no_zero (close : Handle → Option GoError) (ws : List Consumer)
    (h : ∀ t ∈ ws, t.claims ≠ 0) :
    claimLoop close ws = (Exit.fatal "test does not work, must not happen" none, []) := by
  induction ws with
  | nil => rfl
  | cons w rest ih =>
    have hw : w.claims ≠ 0 := h w (List.mem_cons_self _ _)
    simp only [claimLoop, claimStep_of_ne_zero close w hw]
    exact ih (fun t ht => h t (List.mem_cons_of_mem _ ht))

/-- C1: when at least one worker of the sequence has claim count 0 and `Close`
succeeds, the evaluation closes the client of the first such worker in
iteration order, calls `Close` on nothing else (the list of `Close` calls has
that single entry), and `main` returns normally. -/
theorem claimLoop_closes_first_loser (close : Handle → Option GoError) (ws : List Consumer)
    (hzero : ∃ t ∈ ws, t.claims = 0) (hclose : ∀ h, close h = none) :
    ∃ pre t post, ws = pre ++ t :: post ∧ (∀ u ∈ pre, u.claims ≠ 0) ∧ t.claims = 0 ∧
      claimLoop close ws = (Exit.returned, [t.cs]) := by
  obtain ⟨pre, t, post, hsplit, hpre, ht0, hres⟩ := claimLoop_split close ws hzero
  refine ⟨pre, t, post, hsplit, hpre, ht0, ?_⟩
  rw [hres, hclose t.cs]

/-- C1 at a concrete input: three workers with counts 1, 0, 0; the second one
is closed and nothing else. -/
theorem claimLoop_closes_first_loser_witness :
    ∃ pre t post,
      ([⟨1, makeChan 2, 10, 1⟩, ⟨2, makeChan 2, 20, 0⟩, ⟨3, makeChan 2, 30, 0⟩] : List Consumer)
          = pre ++ t :: post ∧
        (∀ u ∈ pre, u.claims ≠ 0) ∧ t.claims = 0 ∧
        claimLoop (fun _ => none)
            [⟨1, makeChan 2, 10, 1⟩, ⟨2, makeChan 2, 20, 0⟩, ⟨3, makeChan 2, 30, 0⟩]
          = (Exit.returned, [t.cs]) :=
  claimLoop_closes_first_loser (fun _ => none)
    [⟨1, makeChan 2, 10, 1⟩, ⟨2, makeChan 2, 20, 0⟩, ⟨3, makeChan 2, 30, 0⟩]
    ⟨⟨2, makeChan 2, 20, 0⟩, by simp, rfl⟩ (fun _ => rfl)

/-- C2: when no worker of the sequence has claim count 0 the evaluation ends in
`log.Fatal("test does not work, must not happen")` (line 169) without any
`Close` call; and whenever it ends in `log.Fatal`, no worker has claim count 0. -/
theorem claimLoop_fatal_iff_no_loser (close : Handle → Option GoError) (ws : List Consumer) :
    ((∀ t ∈ ws, t.claims ≠ 0) →
      claimLoop close ws = (Exit.fatal "test does not work, must not happen" none, [])) ∧
    (∀ label err, (claimLoop close ws).1 = Exit.fatal label err → ∀ t ∈ ws, t.claims ≠ 0) := by
  refine ⟨claimLoop_no_zero close ws, ?_⟩
  intro label err hfatal t ht h0
  obtain ⟨pre, u, post, _, _, _, hres⟩ := claimLoop_split close ws ⟨t, ht, h0⟩
  rw [hres] at hfatal
  cases hc : close u.cs <;> simp [hc] at hfatal

/-- C2 at a concrete input: two workers with counts 1 and 2 end in `log.Fatal`
with no `Close` call, also when `Close` would fail. -/
theorem claimLoop_fatal_iff_no_loser_witness :
    claimLoop (fun _ => some ErrClosedConsumerGroup)
        [⟨1, makeChan 2, 10, 1⟩, ⟨2, makeChan 2, 20, 2⟩]
      = (Exit.fatal "test does not work, must not happen" none, []) :=
  (claimLoop_fatal_iff_no_loser (fun _ => some ErrClosedConsumerGroup)
    [⟨1, makeChan 2, 10, 1⟩, ⟨2, makeChan 2, 20, 2⟩]).1 (by simp)

/-- The sequence has a zero-count worker exactly when their number is positive. -/
theorem zeroCount_pos_iff (ws : List Consumer) :
    0 < ws.countP (fun t => decide (t.claims = 0)) ↔ ∃ t ∈ ws, t.claims = 0 := by
  simp [List.countP_pos_iff]

/-- C3, as stated, fails: with N = 2 workers and P = 1 partition, both workers
having claim count 0 (two zero-count workers, more than N - P = 1), the
evaluation closes the first client and `main` returns normally. -/
theorem claimLoop_two_losers_returns :
    let ws : List Consumer := [⟨1, makeChan 2, 10, 0⟩, ⟨2, makeChan 2, 20, 0⟩]
    ws.length - 1 < ws.countP (fun t => decide (t.claims = 0)) ∧
      claimLoop (fun _ => none) ws = (Exit.returned, [10]) := by
  decide

/-- C3, amended: when the sequence has more zero-count workers than N - P, the
evaluation never reaches `log.Fatal`: it calls `Close` once, on the client of
the first zero-count worker, and `main` returns normally when that call
succeeds and panics with the returned error when it fails. -/
theorem claimLoop_too_many_losers (close : Handle → Option GoError) (ws : List Consumer)
    (P : Nat) (hmany : ws.length - P < ws.countP (fun t => decide (t.claims = 0))) :
    ∃ pre t post, ws = pre ++ t :: post ∧ (∀ u ∈ pre, u.claims ≠ 0) ∧ t.claims = 0 ∧
      (close t.cs = none → claimLoop close ws = (Exit.returned, [t.cs])) ∧
      (∀ err, close t.cs = some err → claimLoop close ws = (Exit.panicked err, [t.cs])) := by
  have hpos : 0 < ws.countP (fun t => decide (t.claims = 0)) := by omega
  obtain ⟨pre, t, post, hsplit, hpre, ht0, hres⟩ :=
    claimLoop_split close ws ((zeroCount_pos_iff ws).mp hpos)
  refine ⟨pre, t, post, hsplit, hpre, ht0, ?_, ?_⟩
  · intro hc; rw [hres, hc]
  · intro err hc; rw [hres, hc]

/-- C3, amended, at a concrete input: both workers have count 0 and `Close`
fails on the first client. -/
theorem claimLoop_too_many_losers_witness :
    ∃ pre t post,
      ([⟨1, makeChan 2, 10, 0⟩, ⟨2, makeChan 2, 20, 0⟩] : List Consumer) = pre ++ t :: post ∧
        (∀ u ∈ pre, u.claims ≠ 0) ∧ t.claims = 0 ∧
        ((fun _ => some ErrClosedConsumerGroup : Handle → Option GoError) t.cs = none →
          claimLoop (fun _ => some ErrClosedConsumerGroup)
            [⟨1, makeChan 2, 10, 0⟩, ⟨2, makeChan 2, 20, 0⟩] = (Exit.returned, [t.cs])) ∧
        (∀ err, (fun _ => some ErrClosedConsumerGroup : Handle → Option GoError) t.cs = some err →
          claimLoop (fun _ => some ErrClosedConsumerGroup)
            [⟨1, makeChan 2, 10, 0⟩, ⟨2, makeChan 2, 20, 0⟩] = (Exit.panicked err, [t.cs])) :=
  claimLoop_too_many_losers (fun _ => some ErrClosedConsumerGroup)
    [⟨1, makeChan 2, 10, 0⟩, ⟨2, makeChan 2, 20, 0⟩] 1 (by decide)

/-! ## Topic creation: theorems -/

/-- The loop over the topic errors lets the run go on exactly when every entry
is a non-nil `TopicError` whose code is `ErrNoError`. -/
theorem topicErrorsLoop_proceed_iff (entries : List (String × Option TopicError)) :
    topicErrorsLoop entries = Stage.proceed ↔
      ∀ p ∈ entries, ∃ te, p.2 = some te ∧ te.Err = ErrNoError := by
  induction entries with
  | nil => simp [topicErrorsLoop]
  | cons p rest ih =>
    obtain ⟨name, te⟩ := p
    cases te with
    | none => simp [topicErrorsLoop]
    | some te =>
      by_cases hte : te.Err = ErrNoError
      · simp [topicErrorsLoop, hte, ih]
      · simp [topicErrorsLoop, hte]

/-- The loop ends in `log.Fatal` at the first entry, in iteration order, whose
code is not `ErrNoError`, and reports the code of that entry. -/
theorem topicErrorsLoop_first_bad (pre post : List (String × Option TopicError))
    (name : String) (te : TopicError)
    (hpre : ∀ p ∈ pre, ∃ t, p.2 = some t ∧ t.Err = ErrNoError) (hbad : te.Err ≠ ErrNoError) :
    topicErrorsLoop (pre ++ (name, some te) :: post)
      = Stage.stop (Exit.fatal "create topic" (some (.kerror te.Err))) := by
  induction pre with
  | nil => simp [topicErrorsLoop, hbad]
  | cons p rest ih =>
    obtain ⟨n, t⟩ := p
    obtain ⟨t0, ht0, hgood⟩ := hpre (n, t) (List.mem_cons_self _ _)
    simp only at ht0
    subst ht0
    simp only [List.cons_append, topicErrorsLoop, hgood, ne_eq, not_true_eq_false, if_false]
    exact ih (fun q hq => hpre q (List.mem_cons_of_mem _ hq))

/-- C4, as stated, fails: `CreateTopics` returns no error and a response whose
topic error for the requested topic is "already exists"; `main` ends in
`log.Fatal` instead of going on to group creation. -/
theorem createTopicStage_already_exists_fatal :
    createTopicStage
        (some { TopicErrors := some [("topic", some { Err := ErrTopicAlreadyExists,
                                                      ErrMsg := none })] })
        none
      = Stage.stop (Exit.fatal "create topic" (some (.kerror ErrTopicAlreadyExists))) := by
  decide

/-- C4, amended: the run goes on to group creation exactly when the call
returned no error (nil or `ErrNoError`), the response is non-nil and every
topic error it carries is `ErrNoError`; and when the call returned no error,
the first topic error in iteration order whose code is not `ErrNoError`,
"already exists" included, ends `main` in `log.Fatal("create topic", te.Err)`
with the code of that very entry. -/
theorem createTopicStage_proceed_iff (res : Option CreateTopicsResponse)
    (err : Option GoError) :
    (createTopicStage res err = Stage.proceed ↔
      isFailure err = false ∧
        ∃ r, res = some r ∧
          ∀ entries, r.TopicErrors = some entries →
            ∀ p ∈ entries, ∃ te, p.2 = some te ∧ te.Err = ErrNoError) ∧
    (∀ r pre name te post, isFailure err = false → res = some r →
      r.TopicErrors = some (pre ++ (name, some te) :: post) →
      (∀ p ∈ pre, ∃ t, p.2 = some t ∧ t.Err = ErrNoError) →
      te.Err ≠ ErrNoError →
      createTopicStage res err
        = Stage.stop (Exit.fatal "create topic" (some (.kerror te.Err)))) := by
  constructor
  · by_cases herr : isFailure err = true
    · simp [createTopicStage, herr]
    · have herr2 : isFailure err = false := by simpa using herr
      cases res with
      | none => simp [createTopicStage, herr2]
      | some r =>
        cases hte : r.TopicErrors with
        | none => simp [createTopicStage, herr2, hte]
        | some entries =>
          simp [createTopicStage, herr2, hte, topicErrorsLoop_proceed_iff]
  · intro r pre name te post herr hres hte hpre hbad
    subst hres
    simp only [createTopicStage, herr, hte, Bool.false_eq_true, if_false]
    exact topicErrorsLoop_first_bad pre post name te hpre hbad

/-- C4, amended, at concrete inputs: a response whose only topic error is
`ErrNoError` lets the run go on; a response with an `ErrNoError` entry followed
by an entry of code 29 (topic authorization failed) and one of code 36 ends in
`log.Fatal` with code 29. -/
theorem createTopicStage_proceed_iff_witness :
    createTopicStage
        (some { TopicErrors := some [("topic", some { Err := ErrNoError, ErrMsg := none })] })
        none
      = Stage.proceed ∧
    createTopicStage
        (some { TopicErrors := some [("a", some { Err := ErrNoError, ErrMsg := none }),
                                     ("b", some { Err := 29, ErrMsg := none }),
                                     ("c", some { Err := ErrTopicAlreadyExists,
                                                  ErrMsg := none })] })
        none
      = Stage.stop (Exit.fatal "create topic" (some (.kerror 29))) :=
  ⟨(createTopicStage_proceed_iff
      (some { TopicErrors := some [("topic", some { Err := ErrNoError, ErrMsg := none })] })
      none).1.mpr
    ⟨rfl, _, rfl, by
      intro entries h p hp
      simp only [Option.some.injEq] at h
      subst h
      simp only [List.mem_singleton] at hp
      subst hp
      exact ⟨_, rfl, rfl⟩⟩,
   (createTopicStage_proceed_iff
      (some { TopicErrors := some [("a", some { Err := ErrNoError, ErrMsg := none }),
                                   ("b", some { Err := 29, ErrMsg := none }),
                                   ("c", some { Err := ErrTopicAlreadyExists,
                                                ErrMsg := none })] })
      none).2 _ [("a", some { Err := ErrNoError, ErrMsg := none })] "b"
      { Err := 29, ErrMsg := none }
      [("c", some { Err := ErrTopicAlreadyExists, ErrMsg := none })] rfl rfl rfl
      (by
        intro p hp
        simp only [List.mem_singleton] at hp
        subst hp
        exact ⟨_, rfl, rfl⟩)
      (by decide)⟩

/-! ## Controller bootstrap: theorems -/

/-- C10: when `Connected` reports no failure and the controller is not
connected, `Open` is called once and the run goes on to topic creation if and
only if `Open` returns `ErrAlreadyConnected`; every other result, the nil
error included, ends in `log.Fatal`. When the controller is connected, `Open`
is not called and the run goes on. -/
theorem controllerBootstrap_spec (ok : Bool) (err openResult : Option GoError)
    (hcheck : isFailure err = false) :
    (ok = false →
      ((controllerBootstrap ok err openResult).stage = Stage.proceed ↔
          openResult = some ErrAlreadyConnected) ∧
        (openResult ≠ some ErrAlreadyConnected →
          (controllerBootstrap ok err openResult).stage
            = Stage.stop (Exit.fatal "oops" openResult)) ∧
        (controllerBootstrap ok err openResult).openCalls = 1) ∧
    (ok = true →
      controllerBootstrap ok err openResult = { stage := Stage.proceed, openCalls := 0 }) := by
  constructor
  · intro hok
    subst hok
    by_cases ho : openResult = some ErrAlreadyConnected
    · simp [controllerBootstrap, hcheck, ho]
    · simp [controllerBootstrap, hcheck, ho]
  · intro hok
    subst hok
    simp [controllerBootstrap, hcheck]

/-- C10 at a concrete input: the controller is not connected and `Open`
succeeds with a nil error; `main` ends in `log.Fatal`. -/
theorem controllerBootstrap_spec_witness :
    (controllerBootstrap false none none).stage = Stage.stop (Exit.fatal "oops" none) ∧
      (controllerBootstrap false none none).openCalls = 1 ∧
      ((controllerBootstrap false none (some ErrAlreadyConnected)).stage = Stage.proceed) :=
  ⟨((controllerBootstrap_spec false none none rfl).1 rfl).2.1 (by decide),
   ((controllerBootstrap_spec false none none rfl).1 rfl).2.2,
   ((controllerBootstrap_spec false none (some ErrAlreadyConnected) rfl).1 rfl).1.mpr rfl⟩

/-! ## The consume loop: theorems -/

/-- An error that directly wraps `target` satisfies `errors.Is` for it. -/
theorem errorsIs_wrapped_self (m : String) (target : GoError) :
    errorsIs (.wrapped m target) target = true := by
  have h : errorsIs target target = true := by
    cases target <;> simp [errorsIs]
  simp [errorsIs, h]

/-- As long as `Consume` returns nil the task keeps calling it. -/
theorem consumeLoop_all_nil (rs : List (Option GoError)) (calls : Nat)
    (h : ∀ r ∈ rs, r = none) : consumeLoop rs calls = (TaskEnd.consuming, calls + rs.length + 1) := by
  induction rs generalizing calls with
  | nil => rfl
  | cons r rest ih =>
    have hr : r = none := h r (List.mem_cons_self _ _)
    subst hr
    simp only [consumeLoop, List.length_cons]
    rw [ih (calls + 1) (fun r hr => h r (List.mem_cons_of_mem _ hr))]
    congr 1
    omega

/-- The first non-nil result of `Consume` decides how the task ends. -/
theorem consumeLoop_first_error (pre post : List (Option GoError)) (e : GoError) (calls : Nat)
    (h : ∀ r ∈ pre, r = none) :
    consumeLoop (pre ++ some e :: post) calls =
      (if errorsIs e ErrClosedConsumerGroup then TaskEnd.returned else TaskEnd.panicked e,
        calls + pre.length + 1) := by
  induction pre generalizing calls with
  | nil =>
    simp only [List.nil_append, consumeLoop, List.length_nil, Nat.add_zero]
    split <;> rfl
  | cons r rest ih =>
    have hr : r = none := h r (List.mem_cons_self _ _)
    subst hr
    have hstep : consumeLoop (none :: rest ++ some e :: post) calls
        = consumeLoop (rest ++ some e :: post) (calls + 1) := rfl
    rw [hstep, ih (calls + 1) (fun r hr => h r (List.mem_cons_of_mem _ hr))]
    simp only [List.length_cons]
    congr 1
    omega

/-- A sequence of results is all nil or splits at its first non-nil result. -/
theorem results_split (rs : List (Option GoError)) :
    (∀ r ∈ rs, r = none) ∨
      ∃ pre e post, rs = pre ++ some e :: post ∧ ∀ r ∈ pre, r = none := by
  induction rs with
  | nil => left; intro r hr; cases hr
  | cons r rest ih =>
    cases r with
    | some e => right; exact ⟨[], e, rest, rfl, fun r hr => by cases hr⟩
    | none =>
      rcases ih with hall | ⟨pre, e, post, hsplit, hpre⟩
      · left
        intro r hr
        rcases List.mem_cons.mp hr with rfl | hmem
        · rfl
        · exact hall r hmem
      · right
        refine ⟨none :: pre, e, post, by simp [hsplit], ?_⟩
        intro r hr
        rcases List.mem_cons.mp hr with rfl | hmem
        · rfl
        · exact hpre r hmem

/-- C5: over every sequence of `Consume` results, each nil result makes the
task call `Consume` again (after `n` nil results `n + 1` calls have been
issued and the task is inside the last one); the first non-nil result makes
the task return when it is or wraps `ErrClosedConsumerGroup` and panic with
that error otherwise; and the task returns only after such a closed-group
error. -/
theorem consumeLoop_spec (rs : List (Option GoError)) (calls : Nat) :
    ((∀ r ∈ rs, r = none) →
      consumeLoop rs calls = (TaskEnd.consuming, calls + rs.length + 1)) ∧
    (∀ pre e post, rs = pre ++ some e :: post → (∀ r ∈ pre, r = none) →
      (errorsIs e ErrClosedConsumerGroup = true →
        consumeLoop rs calls = (TaskEnd.returned, calls + pre.length + 1)) ∧
      (errorsIs e ErrClosedConsumerGroup = false →
        consumeLoop rs calls = (TaskEnd.panicked e, calls + pre.length + 1))) ∧
    ((consumeLoop rs calls).1 = TaskEnd.returned →
      ∃ pre e post, rs = pre ++ some e :: post ∧ (∀ r ∈ pre, r = none) ∧
        errorsIs e ErrClosedConsumerGroup = true) := by
  refine ⟨consumeLoop_all_nil rs calls, ?_, ?_⟩
  · intro pre e post hsplit hpre
    subst hsplit
    rw [consumeLoop_first_error pre post e calls hpre]
    constructor
    · intro h; simp [h]
    · intro h; simp [h]
  · intro hret
    rcases results_split rs with hall | ⟨pre, e, post, hsplit, hpre⟩
    · rw [consumeLoop_all_nil rs calls hall] at hret
      cases hret
    · refine ⟨pre, e, post, hsplit, hpre, ?_⟩
      subst hsplit
      rw [consumeLoop_first_error pre post e calls hpre] at hret
      by_cases h : errorsIs e ErrClosedConsumerGroup = true
      · exact h
      · simp [h] at hret

/-- C5 at a concrete input: two nil results, then an error that wraps the
closed-group error; the task returns after three calls. -/
theorem consumeLoop_spec_witness :
    consumeLoop [none, none, some (.wrapped "consume" ErrClosedConsumerGroup), none] 0
      = (TaskEnd.returned, 3) :=
  ((consumeLoop_spec [none, none, some (.wrapped "consume" ErrClosedConsumerGroup), none] 0).2.1
      [none, none] (.wrapped "consume" ErrClosedConsumerGroup) [none] rfl (by simp)).1
    (errorsIs_wrapped_self _ _)

/-! ## `ConsumeClaim`: theorems -/

/-- The loop appends one `MarkMessage` call per message, in delivery order. -/
theorem consumeClaimLoop_eq (messages : List ConsumerMessage) (marks : List MarkCall) :
    consumeClaimLoop messages marks
      = marks ++ messages.map (fun m => { msg := m, metadata := "" }) := by
  induction messages generalizing marks with
  | nil => simp [consumeClaimLoop]
  | cons m rest ih => simp [consumeClaimLoop, ih]

/-- C7: for every finite sequence of messages delivered on the claim,
`ConsumeClaim` issues exactly one `MarkMessage` call per message, in delivery
order, each with the delivered message itself and the empty metadata string,
adds nothing else to the calls issued before, and returns a nil error. -/
theorem ConsumeClaim_marks_in_order (marks : List MarkCall) (messages : List ConsumerMessage) :
    ConsumeClaim marks messages
      = (marks ++ messages.map (fun m => { msg := m, metadata := "" }), none) := by
  simp [ConsumeClaim, consumeClaimLoop_eq]

/-! ## `Setup`: theorems -/

/-- The conversion `int32(n)` keeps every `n` below `2 ^ 31`. -/
theorem toInt32_of_lt (n : Nat) (h : n < 2 ^ 31) : toInt32 n = n := by
  have h1 : n % 4294967296 = n := Nat.mod_eq_of_lt (by omega)
  unfold toInt32
  rw [h1, if_pos (by omega)]

/-- C6, amended: for every worker state and every session whose claims map has
`k` entries, one call of `Setup` sets the claims field to `int32(k)`, which is
`k` for `k < 2 ^ 31`, overwriting the previous value, and leaves the id and the
client unchanged; when the ready channel has room the call adds exactly one
signal to it and returns a nil error; when the channel is full the call blocks
in the send after the store, with the channel unchanged. -/
theorem Setup_spec (consumer : Consumer) (s : Session) :
    (consumer.ready.len < consumer.ready.cap →
      Setup consumer s =
        SetupResult.returned
          { id := consumer.id
            ready := { cap := consumer.ready.cap, len := consumer.ready.len + 1 }
            cs := consumer.cs
            claims := toInt32 s.Claims.length } none) ∧
    (¬ consumer.ready.len < consumer.ready.cap →
      Setup consumer s =
        SetupResult.blocked
          { id := consumer.id
            ready := consumer.ready
            cs := consumer.cs
            claims := toInt32 s.Claims.length }) ∧
    (s.Claims.length < 2 ^ 31 → toInt32 s.Claims.length = s.Claims.length) := by
  refine ⟨?_, ?_, toInt32_of_lt s.Claims.length⟩
  · intro hroom
    unfold Setup Chan.send storeClaims
    simp only [hroom, if_true]
  · intro hfull
    unfold Setup Chan.send storeClaims
    simp only [hfull, if_false]

/-- C6, amended, at concrete inputs: a worker with claims 7 and one pending
signal is set up with a session claiming one topic and returns; the same
worker with two pending signals blocks after storing the count. -/
theorem Setup_spec_witness :
    Setup { id := 2, ready := { cap := 2, len := 1 }, cs := 20, claims := 7 }
        { Claims := [("topic", [0])] } =
        SetupResult.returned
          { id := 2, ready := { cap := 2, len := 2 }, cs := 20,
            claims := toInt32 [("topic", [(0 : Int)])].length } none ∧
      Setup { id := 2, ready := { cap := 2, len := 2 }, cs := 20, claims := 7 }
        { Claims := [("topic", [0])] } =
        SetupResult.blocked
          { id := 2, ready := { cap := 2, len := 2 }, cs := 20,
            claims := toInt32 [("topic", [(0 : Int)])].length } ∧
      toInt32 [("topic", [(0 : Int)])].length = 1 :=
  ⟨(Setup_spec { id := 2, ready := { cap := 2, len := 1 }, cs := 20, claims := 7 }
      { Claims := [("topic", [0])] }).1 (by decide),
   (Setup_spec { id := 2, ready := { cap := 2, len := 2 }, cs := 20, claims := 7 }
      { Claims := [("topic", [0])] }).2.1 (by decide),
   (Setup_spec { id := 2, ready := { cap := 2, len := 2 }, cs := 20, claims := 7 }
      { Claims := [("topic", [0])] }).2.2 (by norm_num)⟩

/-! ## The rendezvous: theorems -/

/-- Running a schedule followed by one event is running the schedule and then
taking the step. -/
theorem run_snoc (close : Handle → Option GoError) (s : Sys) (evs : List Event) (e : Event) :
    run close s (evs ++ [e]) = (run close s evs).bind (fun s1 => step close s1 e) := by
  induction evs generalizing s with
  | nil =>
    simp only [List.nil_append, run, Option.some_bind]
    cases step close s e <;> rfl
  | cons a rest ih =>
    simp only [List.cons_append, run]
    cases step close s a with
    | none => rfl
    | some s1 => exact ih s1

/-- Running a concatenation of schedules. -/
theorem run_append (close : Handle → Option GoError) (s : Sys) (xs ys : List Event) :
    run close s (xs ++ ys) = (run close s xs).bind (fun s1 => run close s1 ys) := by
  induction xs generalizing s with
  | nil => simp [run]
  | cons a rest ih =>
    simp only [List.cons_append, run]
    cases step close s a with
    | none => rfl
    | some s1 => exact ih s1

/-- Counting the `Setup` calls of a schedule extended by one event. -/
theorem setupCalls_snoc (w : WorkerId) (evs : List Event) (e : Event) :
    setupCalls w (evs ++ [e]) = setupCalls w evs + (if e.isSetupCall w then 1 else 0) := by
  simp [setupCalls, List.countP_append, List.countP_cons]

/-- Counting the signals sent in a schedule extended by one event. -/
theorem signalsSent_snoc (w : WorkerId) (evs : List Event) (e : Event) :
    signalsSent w (evs ++ [e]) = signalsSent w evs + (if e = .setupSend w then 1 else 0) := by
  simp [signalsSent, List.count_append, List.count_cons]

/-- Counting the signals received in a schedule extended by one event. -/
theorem signalsReceived_snoc (w : WorkerId) (evs : List Event) (e : Event) :
    signalsReceived w (evs ++ [e])
      = signalsReceived w evs + (if e = .recvReady w then 1 else 0) := by
  simp [signalsReceived, List.count_append, List.count_cons]

/-- The invariant holds in the initial state with the empty schedule. -/
theorem inv_init (h1 h2 : Handle) : Inv (initSys h1 h2) [] := by
  intro w
  cases w <;>
    simp [initSys, Sys.worker, makeChan, signalsReceived, signalsSent, setupCalls,
      WorkerPc.pending, MainPc.received]

/-- The store of line 184 leaves the ready channel alone. -/
theorem storeClaims_ready (c : Consumer) (sess : Session) :
    (storeClaims c sess).ready = c.ready := rfl

/-- Reading a worker after replacing one. -/
theorem worker_setWorker (s : Sys) (v w : WorkerId) (x : Worker) :
    (s.setWorker v x).worker w = if v = w then x else s.worker w := by
  cases v <;> cases w <;> rfl

/-- Replacing a worker leaves the position of `main` alone. -/
theorem main_setWorker (s : Sys) (v : WorkerId) (x : Worker) :
    (s.setWorker v x).main = s.main := by
  cases v <;> rfl

/-- A send that completes found room and added one value. -/
theorem send_eq_some (c ch : Chan) (h : c.send = some ch) :
    c.len < c.cap ∧ ch.cap = c.cap ∧ ch.len = c.len + 1 := by
  unfold Chan.send at h
  split at h
  · rename_i hlt
    cases h
    exact ⟨hlt, rfl, rfl⟩
  · cases h

/-- A receive that completes found a value and removed one. -/
theorem recv_eq_some (c ch : Chan) (h : c.recv = some ch) :
    0 < c.len ∧ ch.cap = c.cap ∧ ch.len + 1 = c.len := by
  unfold Chan.recv at h
  split at h
  · rename_i hlt
    cases h
    exact ⟨hlt, rfl, by simp only []; omega⟩
  · cases h

/-- The invariant is kept by a completed send of `Setup`. -/
theorem step_setupSend (close : Handle → Option GoError) (s s1 : Sys) (v : WorkerId)
    (evs : List Event) (hstep : step close s (.setupSend v) = some s1) (hinv : Inv s evs) :
    Inv s1 (evs ++ [.setupSend v]) := by
  intro w
  obtain ⟨c1, l1, r1, t1, m1⟩ := hinv w
  rw [setupCalls_snoc, signalsSent_snoc, signalsReceived_snoc]
  simp only [step] at hstep
  split at hstep
  · rename_i hcond
    obtain ⟨hrun, hpc⟩ := hcond
    split at hstep
    · rename_i ch hch
      obtain ⟨hlt, hcap, hlen⟩ := send_eq_some _ _ hch
      cases hstep
      simp only [worker_setWorker, main_setWorker, Event.isSetupCall, reduceCtorEq, if_false,
        Nat.add_zero, Event.setupSend.injEq, Bool.false_eq_true]
      by_cases hvw : v = w
      · subst hvw
        simp only [if_true, WorkerPc.pending]
        rw [hpc] at t1
        simp only [WorkerPc.pending] at t1
        refine ⟨by omega, by omega, by omega, by omega, m1⟩
      · simp only [if_neg hvw, Nat.add_zero]
        exact ⟨c1, l1, r1, t1, m1⟩
    · cases hstep
  · cases hstep
/-- The invariant is kept by the store of `Setup`. -/
theorem step_setupStore (close : Handle → Option GoError) (s s1 : Sys) (v : WorkerId)
    (sess : Session) (evs : List Event)
    (hstep : step close s (.setupStore v sess) = some s1) (hinv : Inv s evs) :
    Inv s1 (evs ++ [.setupStore v sess]) := by
  intro w
  obtain ⟨c1, l1, r1, t1, m1⟩ := hinv w
  rw [setupCalls_snoc, signalsSent_snoc, signalsReceived_snoc]
  simp only [step] at hstep
  split at hstep
  · rename_i hcond
    obtain ⟨hrun, hpc⟩ := hcond
    cases hstep
    simp only [worker_setWorker, main_setWorker, Event.isSetupCall, reduceCtorEq, if_false,
      Nat.add_zero, decide_eq_true_eq]
    by_cases hvw : v = w
    · subst hvw
      simp only [if_true, storeClaims_ready, WorkerPc.pending]
      rw [hpc] at t1
      simp only [WorkerPc.pending] at t1
      exact ⟨c1, l1, r1, by omega, m1⟩
    · simp only [if_neg hvw]
      exact ⟨c1, l1, r1, t1, m1⟩
  · cases hstep

/-- The invariant is kept by a receive of `main`. -/
theorem step_recvReady (close : Handle → Option GoError) (s s1 : Sys) (v : WorkerId)
    (evs : List Event) (hstep : step close s (.recvReady v) = some s1) (hinv : Inv s evs) :
    Inv s1 (evs ++ [.recvReady v]) := by
  have hf := hinv .first
  have hs := hinv .second
  simp only [Sys.worker] at hf hs
  obtain ⟨c1, l1, r1, t1, m1⟩ := hf
  obtain ⟨c2, l2, r2, t2, m2⟩ := hs
  intro w
  rw [setupCalls_snoc, signalsSent_snoc, signalsReceived_snoc]
  simp only [step] at hstep
  split at hstep
  · rename_i hmain
    split at hstep
    · rename_i ch hch
      obtain ⟨hpos, hcap, hlen⟩ := recv_eq_some _ _ hch
      cases hstep
      rw [hmain] at m1 m2
      cases w <;>
        simp only [Sys.worker, Event.isSetupCall, reduceCtorEq, if_false, if_true, Nat.add_zero,
          Event.recvReady.injEq, Bool.false_eq_true, MainPc.received] at m1 m2 ⊢
      · refine ⟨by omega, by omega, by omega, t1, by omega⟩
      · exact ⟨c2, l2, r2, t2, m2⟩
    · cases hstep
  · rename_i hmain
    split at hstep
    · rename_i ch hch
      obtain ⟨hpos, hcap, hlen⟩ := recv_eq_some _ _ hch
      cases hstep
      rw [hmain] at m1 m2
      cases w <;>
        simp only [Sys.worker, Event.isSetupCall, reduceCtorEq, if_false, if_true, Nat.add_zero,
          Event.recvReady.injEq, Bool.false_eq_true, MainPc.received] at m1 m2 ⊢
      · exact ⟨c1, l1, r1, t1, m1⟩
      · refine ⟨by omega, by omega, by omega, t2, by omega⟩
    · cases hstep
  · cases hstep

/-- A loop iteration of `main` leaves the workers alone. -/
theorem loadStep_worker (close : Handle → Option GoError) (s : Sys) (t : Consumer)
    (next : MainPc) (w : WorkerId) : (loadStep close s t next).worker w = s.worker w := by
  unfold loadStep
  split <;> cases w <;> rfl

/-- After a loop iteration `main` still accounts for one signal per worker. -/
theorem loadStep_received (close : Handle → Option GoError) (s : Sys) (t : Consumer)
    (next : MainPc) (w : WorkerId) (hnext : next.received w = 1) :
    (loadStep close s t next).main.received w = 1 := by
  unfold loadStep
  split
  · cases w <;> rfl
  · exact hnext

/-- The invariant is kept by a loop iteration of `main`. -/
theorem step_loadClaims (close : Handle → Option GoError) (s s1 : Sys) (v : WorkerId)
    (evs : List Event) (hstep : step close s (.loadClaims v) = some s1) (hinv : Inv s evs) :
    Inv s1 (evs ++ [.loadClaims v]) := by
  intro w
  obtain ⟨c1, l1, r1, t1, m1⟩ := hinv w
  rw [setupCalls_snoc, signalsSent_snoc, signalsReceived_snoc]
  simp only [step] at hstep
  split at hstep
  · rename_i hmain
    cases hstep
    rw [hmain] at m1
    have hr : (MainPc.loadFirst).received w = 1 := by cases w <;> rfl
    rw [hr] at m1
    simp only [loadStep_worker, Event.isSetupCall, reduceCtorEq, if_false, Nat.add_zero,
      Bool.false_eq_true]
    refine ⟨c1, l1, r1, t1, ?_⟩
    rw [m1, loadStep_received close s _ _ w (by cases w <;> rfl)]
  · rename_i hmain
    cases hstep
    rw [hmain] at m1
    have hr : (MainPc.loadSecond).received w = 1 := by cases w <;> rfl
    rw [hr] at m1
    simp only [loadStep_worker, Event.isSetupCall, reduceCtorEq, if_false, Nat.add_zero,
      Bool.false_eq_true]
    refine ⟨c1, l1, r1, t1, ?_⟩
    rw [m1, loadStep_received close s _ _ w (by cases w <;> rfl)]
  · cases hstep

/-- Every step keeps the invariant. -/
theorem step_preserves (close : Handle → Option GoError) (s s1 : Sys) (e : Event)
    (evs : List Event) (hstep : step close s e = some s1) (hinv : Inv s evs) :
    Inv s1 (evs ++ [e]) := by
  cases e with
  | setupStore v sess => exact step_setupStore close s s1 v sess evs hstep hinv
  | setupSend v => exact step_setupSend close s s1 v evs hstep hinv
  | recvReady v => exact step_recvReady close s s1 v evs hstep hinv
  | loadClaims v => exact step_loadClaims close s s1 v evs hstep hinv

/-- The invariant holds in every state reached from the initial one. -/
theorem reachable_inv (close : Handle → Option GoError) (h1 h2 : Handle) (evs : List Event)
    (s : Sys) (hrun : run close (initSys h1 h2) evs = some s) : Inv s evs := by
  induction evs using List.reverseRecOn generalizing s with
  | nil =>
    simp only [run, Option.some.injEq] at hrun
    subst hrun
    exact inv_init h1 h2
  | append_singleton pre e ih =>
    rw [run_snoc] at hrun
    cases hpre : run close (initSys h1 h2) pre with
    | none => rw [hpre] at hrun; cases hrun
    | some s0 =>
      rw [hpre] at hrun
      exact step_preserves close s0 s e pre hrun (ih s0 hpre)
/-- A loop iteration is enabled only after both receives of `main`. -/
theorem loadClaims_enabled (close : Handle → Option GoError) (s s1 : Sys) (w : WorkerId)
    (hstep : step close s (.loadClaims w) = some s1) : ∀ v, s.main.received v = 1 := by
  intro v
  simp only [step] at hstep
  split at hstep
  · rename_i hmain
    rw [hmain]
    cases v <;> rfl
  · rename_i hmain
    rw [hmain]
    cases v <;> rfl
  · cases hstep

/-- A send completes exactly when the buffer has room. -/
theorem send_ne_none_iff (c : Chan) : c.send ≠ none ↔ c.len < c.cap := by
  unfold Chan.send
  split <;> simp [*]

/-- At every position `main` has received at most one signal per worker. -/
theorem received_le_one (pc : MainPc) (w : WorkerId) : pc.received w ≤ 1 := by
  cases pc <;> cases w <;> simp [MainPc.received]

/-- C8: in every execution, when `main` starts the claim evaluation (it runs
the loop iteration that reads a worker's claims count), each of the two
workers has already sent at least one readiness signal and `main` has received
exactly one signal from each worker's channel. -/
theorem rendezvous_before_evaluation (close : Handle → Option GoError) (h1 h2 : Handle)
    (pre post : List Event) (w : WorkerId) (s : Sys)
    (hrun : run close (initSys h1 h2) (pre ++ Event.loadClaims w :: post) = some s) :
    ∀ v, 1 ≤ signalsSent v pre ∧ signalsReceived v pre = 1 := by
  rw [run_append] at hrun
  cases hpre : run close (initSys h1 h2) pre with
  | none => rw [hpre] at hrun; cases hrun
  | some s0 =>
    rw [hpre] at hrun
    simp only [Option.some_bind, run] at hrun
    cases hstep : step close s0 (.loadClaims w) with
    | none => rw [hstep] at hrun; cases hrun
    | some s1 =>
      intro v
      obtain ⟨_, hlen, _, _, hrecv⟩ := reachable_inv close h1 h2 pre s0 hpre v
      have h1v := loadClaims_enabled close s0 s1 w hstep v
      rw [h1v] at hrecv
      exact ⟨by omega, hrecv⟩

/-- C8 at a concrete execution: both workers set up, `main` receives both
signals and evaluates the claims. -/
theorem rendezvous_before_evaluation_witness :
    (1 ≤ signalsSent .first
          [.setupStore .first { Claims := [("topic", [0])] }, .setupSend .first,
           .setupStore .second { Claims := [] }, .setupSend .second,
           .recvReady .first, .recvReady .second] ∧
      signalsReceived .first
          [.setupStore .first { Claims := [("topic", [0])] }, .setupSend .first,
           .setupStore .second { Claims := [] }, .setupSend .second,
           .recvReady .first, .recvReady .second] = 1) ∧
    (1 ≤ signalsSent .second
          [.setupStore .first { Claims := [("topic", [0])] }, .setupSend .first,
           .setupStore .second { Claims := [] }, .setupSend .second,
           .recvReady .first, .recvReady .second] ∧
      signalsReceived .second
          [.setupStore .first { Claims := [("topic", [0])] }, .setupSend .first,
           .setupStore .second { Claims := [] }, .setupSend .second,
           .recvReady .first, .recvReady .second] = 1) :=
  ⟨rendezvous_before_evaluation (fun _ => none) 10 20
      [.setupStore .first { Claims := [("topic", [0])] }, .setupSend .first,
       .setupStore .second { Claims := [] }, .setupSend .second,
       .recvReady .first, .recvReady .second]
      [.loadClaims .second] .first _ rfl .first,
   rendezvous_before_evaluation (fun _ => none) 10 20
      [.setupStore .first { Claims := [("topic", [0])] }, .setupSend .first,
       .setupStore .second { Claims := [] }, .setupSend .second,
       .recvReady .first, .recvReady .second]
      [.loadClaims .second] .first _ rfl .second⟩

/-- C9, as stated, fails: a worker is set up four times and `main` receives its
single signal from that worker's channel after the first; the fourth `Setup`
call stands at its send with the channel full (two signals in a buffer of
two), so the send cannot complete. -/
theorem setup_send_finds_channel_full :
    (run (fun _ => none) (initSys 10 20)
        [.setupStore .first { Claims := [("topic", [0])] }, .setupSend .first,
         .recvReady .first,
         .setupStore .first { Claims := [("topic", [0])] }, .setupSend .first,
         .setupStore .first { Claims := [("topic", [0])] }, .setupSend .first,
         .setupStore .first { Claims := [("topic", [0])] }]).map
      (fun s => (s.consumer1.pc, s.consumer1.consumer.ready, s.consumer1.consumer.ready.send))
      = some (WorkerPc.atSend, { cap := 2, len := 2 }, none) := by
  rfl

/-- C9, amended: each ready channel has a buffer of two, so in every
interleaving the send of a worker's `n`-th `Setup` call finds room exactly
when `n ≤ 2 + r`, where `r ≤ 1` is the number of signals `main` has already
received from that worker: the first two calls never find the channel full, a
third does until `main` has received, and a fourth always does. -/
theorem setup_send_room_iff (close : Handle → Option GoError) (h1 h2 : Handle)
    (evs : List Event) (s : Sys) (w : WorkerId)
    (hrun : run close (initSys h1 h2) evs = some s) (hpc : (s.worker w).pc = .atSend) :
    ((s.worker w).consumer.ready.send ≠ none ↔
        setupCalls w evs ≤ 2 + signalsReceived w evs) ∧
      signalsReceived w evs ≤ 1 := by
  obtain ⟨hcap, hlen, _, hcalls, hrecv⟩ := reachable_inv close h1 h2 evs s hrun w
  rw [hpc] at hcalls
  simp only [WorkerPc.pending] at hcalls
  have hle := received_le_one s.main w
  rw [send_ne_none_iff, hcap]
  constructor
  · constructor <;> intro h <;> omega
  · omega

/-- C9, amended, at a concrete execution: the second `Setup` call on the first
worker, before `main` has received anything, finds room in the channel. -/
theorem setup_send_room_iff_witness :
    (Chan.send { cap := 2, len := 1 } ≠ none ↔
        setupCalls .first
            [.setupStore .first { Claims := [] }, .setupSend .first,
             .setupStore .first { Claims := [] }]
          ≤ 2 + signalsReceived .first
            [.setupStore .first { Claims := [] }, .setupSend .first,
             .setupStore .first { Claims := [] }]) ∧
      signalsReceived .first
          [.setupStore .first { Claims := [] }, .setupSend .first,
           .setupStore .first { Claims := [] }] ≤ 1 :=
  setup_send_room_iff (fun _ => none) 10 20
    [.setupStore .first { Claims := [] }, .setupSend .first, .setupStore .first { Claims := [] }]
    { consumer1 := { consumer := { id := 1, ready := { cap := 2, len := 1 }, cs := 10,
                                   claims := 0 },
                     pc := .atSend }
      consumer2 := { consumer := { id := 2, ready := { cap := 2, len := 0 }, cs := 20,
                                   claims := 0 },
                     pc := .outside }
      main := .awaitFirst
      closed := [] }
    .first rfl rfl

/-- C6, as stated, fails: the first worker has been set up three times and
`main` has taken its one receive from that worker's channel, which now holds
two signals; a fourth `Setup` call with a session claiming one topic stores
the count and then blocks in the send: no signal is appended and nothing is
returned, and in every continuation of the execution that call stays at its
send with the channel full. -/
theorem Setup_blocks_on_full_channel :
    (run (fun _ => none) (initSys 10 20)
        [.setupStore .first { Claims := [] }, .setupSend .first, .recvReady .first,
         .setupStore .first { Claims := [] }, .setupSend .first,
         .setupStore .first { Claims := [] }, .setupSend .first]).map
      (fun s => (s.main, s.consumer1.consumer,
        Setup s.consumer1.consumer { Claims := [("topic", [0])] }))
      = some (MainPc.awaitSecond,
              { id := 1, ready := { cap := 2, len := 2 }, cs := 10, claims := 0 },
              SetupResult.blocked
                { id := 1, ready := { cap := 2, len := 2 }, cs := 10, claims := 1 }) ∧
    ∀ (close : Handle → Option GoError) (post : List Event) (s : Sys),
      run close (initSys 10 20)
          ([.setupStore .first { Claims := [] }, .setupSend .first, .recvReady .first,
            .setupStore .first { Claims := [] }, .setupSend .first,
            .setupStore .first { Claims := [] }, .setupSend .first] ++
            .setupStore .first { Claims := [("topic", [0])] } :: post) = some s →
        s.consumer1.pc = WorkerPc.atSend ∧ s.consumer1.consumer.ready.len = 2 := by
  refine ⟨rfl, ?_⟩
  intro close post s hrun
  obtain ⟨_, hlen, hroom, hcalls, hrecv⟩ := reachable_inv close 10 20 _ s hrun .first
  have hle := received_le_one s.main .first
  have hcount : 4 ≤ setupCalls .first
      ([.setupStore .first { Claims := [] }, .setupSend .first, .recvReady .first,
        .setupStore .first { Claims := [] }, .setupSend .first,
        .setupStore .first { Claims := [] }, .setupSend .first] ++
        .setupStore .first { Claims := [("topic", [0])] } :: post) := by
    simp [setupCalls, List.countP_cons, Event.isSetupCall]
  simp only [Sys.worker] at hlen hroom hcalls
  cases hpc : s.consumer1.pc with
  | outside =>
    rw [hpc] at hcalls
    simp only [WorkerPc.pending] at hcalls
    omega
  | atSend =>
    rw [hpc] at hcalls
    simp only [WorkerPc.pending] at hcalls
    exact ⟨rfl, by omega⟩

end SaramaCloseBug
